import Mathlib

/-!
Verification development for the Slate local-kernel assembly compiler
(`firedrake/slate/slac/kernel_builder.py`).

The expression graph is embedded as an arena of nodes: node ids are
positions in a list, operand ids reference earlier entries, so object
identity in the source becomes id equality here.  External collaborators
(the form compiler, `create_element`, the mesh) are passed in as data:
an `Env` record and explicit lists of context kernels.  Python floats in
the flop model are embedded as rationals; all operation counts involved
are nonnegative, so Python's `int()` truncation agrees with the floor.
-/

namespace Slate

/-- Description of a coefficient function's UFL element: a mixed element
carries one space dimension per sub-element, a simple element a single
space dimension (this is the data `create_element(...).space_dimension()`
provides to the builder). -/
inductive ElemDesc where
  | mixed (subDims : List Nat)
  | simple (dim : Nat)
deriving DecidableEq

/-- Sub-block sizes of a coefficient as computed in
`LocalKernelBuilder.__init__`: one dimension per sub-element for a
mixed element, else a singleton. -/
def shapesOf : ElemDesc → List Nat
  | .mixed ds => ds
  | .simple d => [d]

/-- Node kinds of the Slate expression graph (`slate.Tensor`,
`slate.AssembledVector`, and the algebraic node classes). -/
inductive NodeKind where
  | tensor
  | assembledVector (function : Nat)
  | add
  | mul
  | negative
  | transpose
  | block
  | inverse
  | solve
  | factorization (decomposition : String)
deriving DecidableEq

/-- One node of the expression graph: its kind, its `shape`, and the ids
of its `operands`. -/
structure NodeDesc where
  kind : NodeKind
  shape : List Nat
  operands : List Nat
deriving DecidableEq

/-- An expression DAG as an arena: node ids are positions in `nodes`;
a well-formed graph has every operand id smaller than its parent's id
(ids are assigned at node creation). -/
structure Graph where
  nodes : List NodeDesc
deriving DecidableEq

def descAt (g : Graph) (i : Nat) : Option NodeDesc := g.nodes.get? i

def operandsAt (g : Graph) (i : Nat) : List Nat :=
  ((descAt g i).map NodeDesc.operands).getD []

def shapeAt (g : Graph) (i : Nat) : Option (List Nat) :=
  (descAt g i).map NodeDesc.shape

/-- Bounded-depth reachability along operand edges that descend in node
id; the fuel argument makes the recursion structural.  For graphs whose
operand ids are below the parent id (which the arena construction
guarantees), fuel `j+1` is always enough from node `j`. -/
def reachFuel (g : Graph) : Nat → Nat → Nat → Bool
  | 0, _, _ => false
  | f + 1, j, i =>
    (j == i) || (operandsAt g j).any (fun c => decide (c < j) && reachFuel g f c i)

/-- Reachability from node `j` to node `i` along descending operand edges. -/
def reachB (g : Graph) (j i : Nat) : Bool := reachFuel g (j + 1) j i

/-- Modelled from the spec: the traversal helper `traverse_dags` lives in
`firedrake/slate/slac/utils.py`, which is not among the sources here.
Section 4.1 of the spec requires the traversal to visit every node
reachable from the root exactly once, in a stable deterministic order;
this model uses increasing node-id order over the reachable set. -/
def traverse_dags (g : Graph) (root : Nat) : List Nat :=
  (List.range g.nodes.length).filter (fun i => reachB g root i)

/-- Error classes raised by the builders (Python exception classes are
collapsed to constructors carrying the diagnostic payload). -/
inductive SlateError where
  | variableLayers
  | unsupportedIntegralType (it : String)
  | mismatchingCoordinates
  | subdomainNotImplemented (kint : String)
  | cellSubdomainNotImplemented
  | mixedNotSupported
  | unhandledIntegralType (it : String)
  | keyError
  | indexError
  | nameError
  | assertionFailed
  | unpackError
deriving DecidableEq

/- ### Static cost model (`LocalKernelBuilder.expression_flops`) -/

def luFamilies : List String := ["PartialPivLU", "FullPivLU"]

def choleskyFamilies : List String := ["LLT", "LDLT"]

def qrFamilies : List String :=
  ["HouseholderQR", "ColPivHouseholderQR", "FullPivHouseholderQR"]

def svdFamilies : List String := ["BDCSVD", "JacobiSVD"]

/-- Flop estimate for a `Factorization` node of column dimension `n`,
matching `_flops_factorization`: the four recognized families get their
Golub & Van Loan estimates, anything else prices as zero. -/
def factorizationFlops (decomposition : String) (n : Nat) : Rat :=
  if luFamilies.contains decomposition then 2 / 3 * (n : Rat) ^ 3
  else if choleskyFamilies.contains decomposition then 1 / 3 * (n : Rat) ^ 3
  else if qrFamilies.contains decomposition then 4 / 3 * (n : Rat) ^ 3
  else if svdFamilies.contains decomposition then 12 * (n : Rat) ^ 3
  else 0

/-- Per-node flop estimate, the `_flops` dispatch of `expression_flops`.
Terminal, vector, block, transpose and negative nodes are free; `Add`
costs its element count; `Mul` and `Solve` read their operands' shapes;
`Inverse` asserts squareness.  Shape-unpacking failures surface as
errors, as the Python tuple unpacking would. -/
def flopsAt (g : Graph) (i : Nat) : Except SlateError Rat :=
  match descAt g i with
  | none => .error .keyError
  | some d =>
    match d.kind with
    | .tensor => .ok 0
    | .assembledVector _ => .ok 0
    | .block => .ok 0
    | .transpose => .ok 0
    | .negative => .ok 0
    | .factorization dec =>
      match d.shape with
      | [_, n] => .ok (factorizationFlops dec n)
      | _ => .error .unpackError
    | .inverse =>
      match d.shape with
      | [m, n] => if m = n then .ok (2 / 3 * (n : Rat) ^ 3) else .error .assertionFailed
      | _ => .error .unpackError
    | .add => .ok ((d.shape.prod : Nat) : Rat)
    | .mul =>
      match d.operands with
      | [a, b] =>
        match shapeAt g a, shapeAt g b with
        | some sa, some sb =>
          match sa.getLast?, sb with
          | some col, _ :: rb =>
            .ok (2 * (col : Rat) * ((sa.dropLast.prod : Nat) : Rat) * ((rb.prod : Nat) : Rat))
          | _, _ => .error .unpackError
        | _, _ => .error .keyError
      | _ => .error .unpackError
    | .solve =>
      match d.operands with
      | [a, b] =>
        match shapeAt g a, shapeAt g b with
        | some [m, n], some (_ :: rest) =>
          .ok (((m : Rat) * (n : Rat) + (n : Rat) ^ 2) * ((rest.prod : Nat) : Rat))
        | some _, some _ => .error .unpackError
        | _, _ => .error .keyError
      | _ => .error .unpackError

/-- Python's `int()` on the (nonnegative) accumulated estimate: floor. -/
def pyInt (q : Rat) : Int := ⌊q⌋

def sumFlops (g : Graph) (l : List Nat) : Except SlateError Rat :=
  l.foldlM (fun acc i => (flopsAt g i).map (acc + ·)) 0

/-- The whole-expression estimate `expression_flops`: the per-node costs
summed over the one-pass traversal, truncated to an integer at the end. -/
def expression_flops (g : Graph) (root : Nat) : Except SlateError Int :=
  (sumFlops g (traverse_dags g root)).map pyInt

/- Concrete example graphs for the cost-model examples. -/

def gAddC7 : Graph :=
  ⟨[⟨.tensor, [3, 3], []⟩, ⟨.tensor, [3, 3], []⟩, ⟨.add, [3, 3], [0, 1]⟩]⟩

def gMulC7 : Graph :=
  ⟨[⟨.tensor, [3, 4], []⟩, ⟨.tensor, [4, 5], []⟩, ⟨.mul, [3, 5], [0, 1]⟩]⟩

def gInvC7 : Graph :=
  ⟨[⟨.tensor, [4, 4], []⟩, ⟨.inverse, [4, 4], [0]⟩]⟩

def gPassC7 : Graph :=
  ⟨[⟨.tensor, [3, 3], []⟩, ⟨.assembledVector 0, [3], []⟩, ⟨.transpose, [3, 3], [0]⟩,
    ⟨.negative, [3, 3], [0]⟩, ⟨.block, [2, 2], [0]⟩]⟩

/-- C7: the cost model's closed-form examples hold: an `Add` of shape
`(3,3)` contributes exactly 9; a `Mul` of a `(3,4)` operand by a `(4,5)`
operand contributes `2*4*3*5 = 120`; an `Inverse` of a `4x4` operand
contributes `2/3 * 4^3`, which rounds to 42 in the integer total; and the
pass-through kinds (`Terminal`, `AssembledVectorRef`, `Transpose`,
`Negative`, `Block`) each contribute 0. -/
theorem claim_C7 :
    flopsAt gAddC7 2 = .ok 9 ∧ expression_flops gAddC7 2 = .ok 9 ∧
    flopsAt gMulC7 2 = .ok 120 ∧ expression_flops gMulC7 2 = .ok 120 ∧
    flopsAt gInvC7 1 = .ok (128 / 3) ∧ expression_flops gInvC7 1 = .ok 42 ∧
    flopsAt gPassC7 0 = .ok 0 ∧ flopsAt gPassC7 1 = .ok 0 ∧
    flopsAt gPassC7 2 = .ok 0 ∧ flopsAt gPassC7 3 = .ok 0 ∧
    flopsAt gPassC7 4 = .ok 0 := by
  refine ⟨rfl, ?_, ?_, ?_, ?_, ?_, rfl, rfl, rfl, rfl, rfl⟩
  · rw [show expression_flops gAddC7 2
        = .ok (pyInt (0 + 0 + 0 + ((9 : Nat) : Rat))) from rfl]
    unfold pyInt
    congr 1
    push_cast
    norm_num
  · rw [show flopsAt gMulC7 2
        = .ok (2 * ((4 : Nat) : Rat) * ((3 : Nat) : Rat) * ((5 : Nat) : Rat)) from rfl]
    congr 1
    push_cast
    norm_num
  · rw [show expression_flops gMulC7 2
        = .ok (pyInt (0 + 0 + 0
            + 2 * ((4 : Nat) : Rat) * ((3 : Nat) : Rat) * ((5 : Nat) : Rat))) from rfl]
    unfold pyInt
    congr 1
    push_cast
    norm_num
  · rw [show flopsAt gInvC7 1 = .ok (2 / 3 * ((4 : Nat) : Rat) ^ 3) from rfl]
    congr 1
    push_cast
    norm_num
  · rw [show expression_flops gInvC7 1
        = .ok (pyInt (0 + 0 + 2 / 3 * ((4 : Nat) : Rat) ^ 3)) from rfl]
    unfold pyInt
    congr 1
    push_cast
    norm_num

/-- The four recognized decomposition families, flattened. -/
def recognizedFamilies : List String :=
  ["PartialPivLU", "FullPivLU", "LLT", "LDLT", "HouseholderQR",
   "ColPivHouseholderQR", "FullPivHouseholderQR", "BDCSVD", "JacobiSVD"]

/-- C8: a `Factorization` node whose declared decomposition family is not
among the recognized LU, Cholesky, QR or SVD families costs exactly zero
in the expression cost model, and pricing such a node always succeeds
(no error is raised just because the family cannot be priced). -/
theorem claim_C8 (g : Graph) (i : Nat) (dec : String) (m n : Nat) (ops : List Nat)
    (hdesc : descAt g i = some ⟨.factorization dec, [m, n], ops⟩) :
    (∃ q, flopsAt g i = .ok q) ∧
    (dec ∉ recognizedFamilies → flopsAt g i = .ok 0) := by
  have hfl : flopsAt g i = .ok (factorizationFlops dec n) := by
    unfold flopsAt
    rw [hdesc]
  refine ⟨⟨factorizationFlops dec n, hfl⟩, fun hdec => ?_⟩
  rw [hfl]
  simp only [recognizedFamilies, List.mem_cons, List.not_mem_nil, or_false] at hdec
  have h1 : luFamilies.contains dec = false := by
    simp only [luFamilies, List.elem_eq_mem, decide_eq_false_iff_not, List.mem_cons,
      List.not_mem_nil, or_false]
    tauto
  have h2 : choleskyFamilies.contains dec = false := by
    simp only [choleskyFamilies, List.elem_eq_mem, decide_eq_false_iff_not, List.mem_cons,
      List.not_mem_nil, or_false]
    tauto
  have h3 : qrFamilies.contains dec = false := by
    simp only [qrFamilies, List.elem_eq_mem, decide_eq_false_iff_not, List.mem_cons,
      List.not_mem_nil, or_false]
    tauto
  have h4 : svdFamilies.contains dec = false := by
    simp only [svdFamilies, List.elem_eq_mem, decide_eq_false_iff_not, List.mem_cons,
      List.not_mem_nil, or_false]
    tauto
  unfold factorizationFlops
  rw [h1, h2, h3, h4]
  rfl

def gFactC8 : Graph :=
  ⟨[⟨.tensor, [4, 4], []⟩, ⟨.factorization "SchurDecomposition", [4, 4], [0]⟩]⟩

/-- Witness for C8 at a concrete unrecognized factorization family. -/
theorem claim_C8_witness :
    (∃ q, flopsAt gFactC8 1 = .ok q) ∧
    ("SchurDecomposition" ∉ recognizedFamilies → flopsAt gFactC8 1 = .ok 0) :=
  claim_C8 gFactC8 1 "SchurDecomposition" 4 4 [0] rfl

/- ### Coefficient packing (`LocalKernelBuilder.__init__`, packing loop) -/

/-- One packing record, the `CoefficientInfo` namedtuple.  The `shape`
field stores the total packed length (the source stores the singleton
tuple `(sum(shapes),)`); `vector` is the id of the owning
`AssembledVector` node. -/
structure CoefficientInfo where
  space_index : Nat
  offset_index : Nat
  shape : Nat
  vector : Nat
  local_temp : String
deriving DecidableEq

/-- The packing enumeration `for i, shape in enumerate(shapes)` with the
running offset: produces `(space_index, offset, block_size)` triples. -/
def packAux : Nat → Nat → List Nat → List (Nat × Nat × Nat)
  | _, _, [] => []
  | i, off, s :: rest => (i, off, s) :: packAux (i + 1) (off + s) rest

def packTriples (shapes : List Nat) : List (Nat × Nat × Nat) :=
  packAux 0 0 shapes

/-- The packing records emitted for one coefficient: one per sub-block,
each carrying the shared packed temporary and the owning vector node. -/
def mkCinfos (shapes : List Nat) (vec : Nat) (tmp : String) : List CoefficientInfo :=
  (packTriples shapes).map fun t => ⟨t.1, t.2.1, shapes.sum, vec, tmp⟩

theorem packAux_le_offset {l : List Nat} :
    ∀ {i off : Nat} {t : Nat × Nat × Nat}, t ∈ packAux i off l → off ≤ t.2.1 := by
  induction l with
  | nil => intro i off t ht; cases ht
  | cons s rest ih =>
    intro i off t ht
    rcases List.mem_cons.mp ht with h | h
    · subst h; exact Nat.le_refl _
    · exact Nat.le_trans (Nat.le_add_right off s) (ih h)

theorem packAux_pairwise {l : List Nat} (hpos : ∀ s ∈ l, 0 < s) :
    ∀ {i off : Nat},
      List.Pairwise (fun t u : Nat × Nat × Nat =>
        t.2.1 + t.2.2 ≤ u.2.1 ∧ t.2.1 < u.2.1) (packAux i off l) := by
  induction l with
  | nil => intro i off; exact List.Pairwise.nil
  | cons s rest ih =>
    intro i off
    refine List.Pairwise.cons (fun u hu => ?_) (ih (fun x hx => hpos x (List.mem_cons_of_mem s hx)))
    have hle : off + s ≤ u.2.1 := packAux_le_offset hu
    have hs : 0 < s := hpos s (List.mem_cons_self s rest)
    exact ⟨hle, Nat.lt_of_lt_of_le (Nat.lt_add_of_pos_right hs) hle⟩

theorem packAux_getLast {l : List Nat} :
    ∀ {i off : Nat} {t : Nat × Nat × Nat},
      (packAux i off l).getLast? = some t → t.2.1 + t.2.2 = off + l.sum := by
  induction l with
  | nil => intro i off t ht; cases ht
  | cons s rest ih =>
    intro i off t ht
    cases rest with
    | nil =>
      simp only [packAux, List.getLast?_singleton, Option.some.injEq] at ht
      subst ht
      simp [List.sum_cons]
    | cons s2 r2 =>
      have hne : packAux (i + 1) (off + s) (s2 :: r2) = (i + 1, off + s, s2) :: packAux (i + 2) (off + s + s2) r2 := rfl
      have : (packAux i off (s :: s2 :: r2)).getLast? = (packAux (i + 1) (off + s) (s2 :: r2)).getLast? := by
        show ((i, off, s) :: packAux (i + 1) (off + s) (s2 :: r2)).getLast? = _
        rw [hne]
        exact List.getLast?_cons_cons
      rw [this] at ht
      have := ih ht
      rw [List.sum_cons]
      omega

theorem packAux_length {l : List Nat} : ∀ {i off : Nat}, (packAux i off l).length = l.length := by
  induction l with
  | nil => intro i off; rfl
  | cons s rest ih => intro i off; simpa [packAux] using ih

/-- C4: for every coefficient the packer processes, offsets start at
zero, are strictly increasing, the blocks are adjacent hence
non-overlapping, and the final offset plus its block size equals the
total packed length recorded on every packing record. -/
theorem claim_C4 (shapes : List Nat) (vec : Nat) (tmp : String)
    (hpos : ∀ s ∈ shapes, 0 < s) :
    (∀ t, (packTriples shapes).head? = some t → t.2.1 = 0) ∧
    List.Pairwise (fun t u : Nat × Nat × Nat =>
      t.2.1 + t.2.2 ≤ u.2.1 ∧ t.2.1 < u.2.1) (packTriples shapes) ∧
    (∀ t, (packTriples shapes).getLast? = some t → t.2.1 + t.2.2 = shapes.sum) ∧
    (∀ c ∈ mkCinfos shapes vec tmp, c.shape = shapes.sum) ∧
    (mkCinfos shapes vec tmp).length = shapes.length := by
  refine ⟨?_, packAux_pairwise hpos, ?_, ?_, ?_⟩
  · intro t ht
    cases shapes with
    | nil => cases ht
    | cons s rest =>
      simp only [packTriples, packAux, List.head?_cons, Option.some.injEq] at ht
      subst ht
      rfl
  · intro t ht
    simpa using packAux_getLast ht
  · intro c hc
    rcases List.mem_map.mp hc with ⟨t, _, rfl⟩
    rfl
  · simp [mkCinfos, packTriples, packAux_length]

/-- Witness for C4 on the concrete block-size list `[3, 2, 4]`. -/
theorem claim_C4_witness :
    (∀ t, (packTriples [3, 2, 4]).head? = some t → t.2.1 = 0) ∧
    List.Pairwise (fun t u : Nat × Nat × Nat =>
      t.2.1 + t.2.2 ≤ u.2.1 ∧ t.2.1 < u.2.1) (packTriples [3, 2, 4]) ∧
    (∀ t, (packTriples [3, 2, 4]).getLast? = some t → t.2.1 + t.2.2 = List.sum [3, 2, 4]) ∧
    (∀ c ∈ mkCinfos [3, 2, 4] 7 "VecTemp0", c.shape = List.sum [3, 2, 4]) ∧
    (mkCinfos [3, 2, 4] 7 "VecTemp0").length = List.length [3, 2, 4] :=
  claim_C4 [3, 2, 4] 7 "VecTemp0" (by decide)

/- ### Builder construction (`LocalKernelBuilder.__init__`) -/

/-- External inputs the builder borrows: the element description of each
coefficient function (by function id), the mesh's variable-layers flag,
the expression's coefficient list, and the argument extents used by the
structured-loop target. -/
structure Env where
  elem : Nat → ElemDesc
  variableLayers : Bool
  exprCoefficients : List Nat
  extent : Nat → Nat

/-- One `Counter.update` step: increment the count of `k`, keeping the
insertion order of first appearances. -/
def counterAdd : List (Nat × Nat) → Nat → List (Nat × Nat)
  | [], k => [(k, 1)]
  | (k2, n) :: rest, k =>
    if k2 = k then (k2, n + 1) :: rest else (k2, n) :: counterAdd rest k

def counterUpdate (c : List (Nat × Nat)) (ks : List Nat) : List (Nat × Nat) :=
  ks.foldl counterAdd c

/-- The `temps.setdefault(tensor, Symbol("T%d" % len(temps)))` step on an
insertion-ordered association list. -/
def setdefaultTemp (temps : List (Nat × String)) (i : Nat) : List (Nat × String) :=
  if (temps.lookup i).isSome then temps
  else temps ++ [(i, "T" ++ toString temps.length)]

/-- The `coeff_vecs.setdefault(shape, []).append(cinfo)` step. -/
def setdefaultAppend (k : Nat) (v : CoefficientInfo) :
    List (Nat × List CoefficientInfo) → List (Nat × List CoefficientInfo)
  | [] => [(k, [v])]
  | p :: rest =>
    if p.1 = k then (p.1, p.2 ++ [v]) :: rest else p :: setdefaultAppend k v rest

/-- The packing loop of `__init__`: one `setdefault`-append per sub-block. -/
def packInto (shapes : List Nat) (vec : Nat) (tmp : String)
    (cv : List (Nat × List CoefficientInfo)) : List (Nat × List CoefficientInfo) :=
  (packTriples shapes).foldl
    (fun acc t => setdefaultAppend t.2.2 ⟨t.1, t.2.1, shapes.sum, vec, tmp⟩ acc) cv

/-- The state `__init__` accumulates: terminal temporaries, coefficient
packing records keyed by block size, the seen-coefficient set (as an
insertion-ordered list), the reference counter, and the traversal. -/
structure InitResult where
  temps : List (Nat × String)
  coeffVecs : List (Nat × List CoefficientInfo)
  seenCoeff : List Nat
  refCounter : List (Nat × Nat)
  expressionDag : List Nat
deriving DecidableEq

/-- One iteration of the `for tensor in expression_dag` loop. -/
def initStep (env : Env) (g : Graph) (st : InitResult) (i : Nat) : InitResult :=
  let st1 : InitResult := { st with refCounter := counterUpdate st.refCounter (operandsAt g i) }
  match descAt g i with
  | none => st1
  | some d =>
    match d.kind with
    | .tensor => { st1 with temps := setdefaultTemp st1.temps i }
    | .assembledVector f =>
      if st1.seenCoeff.contains f then st1
      else
        { st1 with
          coeffVecs := packInto (shapesOf (env.elem f)) i
            ("VecTemp" ++ toString st1.seenCoeff.length) st1.coeffVecs,
          seenCoeff := st1.seenCoeff ++ [f] }
    | _ => st1

/-- The whole constructor: reject variable layers, then fold the
collection loop over the one-pass traversal. -/
def builderInit (env : Env) (g : Graph) (root : Nat) : Except SlateError InitResult :=
  if env.variableLayers then .error .variableLayers
  else
    .ok ((traverse_dags g root).foldl (initStep env g)
      ⟨[], [], [], counterAdd [] root, traverse_dags g root⟩)

def isTensorB (g : Graph) (i : Nat) : Bool :=
  match descAt g i with
  | some d =>
    match d.kind with
    | .tensor => true
    | _ => false
  | none => false

theorem lookup_append_none {β : Type} {l1 : List (Nat × β)} (l2 : List (Nat × β)) {k : Nat}
    (h : l1.lookup k = none) : (l1 ++ l2).lookup k = l2.lookup k := by
  induction l1 with
  | nil => rfl
  | cons p rest ih =>
    obtain ⟨a, b⟩ := p
    by_cases hk : k = a
    · subst hk
      rw [List.lookup_cons] at h
      simp at h
    · have hbeq : (k == a) = false := beq_eq_false_iff_ne.mpr hk
      rw [List.lookup_cons, hbeq] at h
      rw [List.cons_append, List.lookup_cons, hbeq]
      exact ih h

theorem initStep_temps_of_not_tensor (env : Env) (g : Graph) (st : InitResult) (i : Nat) :
    isTensorB g i = false → (initStep env g st i).temps = st.temps := by
  unfold isTensorB initStep
  cases descAt g i with
  | none => intro _; rfl
  | some d =>
    obtain ⟨kind, shape, ops⟩ := d
    cases kind <;> intro h <;> first
      | rfl
      | (dsimp only; split <;> rfl)
      | (simp at h)

theorem initStep_temps_of_tensor (env : Env) (g : Graph) (st : InitResult) (i : Nat) :
    isTensorB g i = true → (initStep env g st i).temps = setdefaultTemp st.temps i := by
  unfold isTensorB initStep
  cases descAt g i with
  | none => intro h; cases h
  | some d =>
    obtain ⟨kind, shape, ops⟩ := d
    cases kind <;> intro h <;> first
      | rfl
      | (simp at h)

theorem initFold_temps (env : Env) (g : Graph) :
    ∀ (l : List Nat) (st : InitResult), l.Nodup →
      (∀ i ∈ l, isTensorB g i = true → st.temps.lookup i = none) →
      (l.foldl (initStep env g) st).temps.map Prod.fst
        = st.temps.map Prod.fst ++ l.filter (isTensorB g) := by
  intro l
  induction l with
  | nil => intro st _ _; simp
  | cons i l ih =>
    intro st hnd hfresh
    rw [List.foldl_cons]
    cases hti : isTensorB g i with
    | false =>
      have ht := initStep_temps_of_not_tensor env g st i hti
      rw [List.filter_cons_of_neg (by simp [hti])]
      rw [ih (initStep env g st i) hnd.of_cons
        (fun j hj htj => by rw [ht]; exact hfresh j (List.mem_cons_of_mem i hj) htj)]
      rw [ht]
    | true =>
      have hlook : st.temps.lookup i = none := hfresh i (List.mem_cons_self i l) hti
      have ht : (initStep env g st i).temps
          = st.temps ++ [(i, "T" ++ toString st.temps.length)] := by
        rw [initStep_temps_of_tensor env g st i hti]
        unfold setdefaultTemp
        rw [hlook]
        rfl
      have hifresh : ∀ j ∈ l, isTensorB g j = true →
          (initStep env g st i).temps.lookup j = none := by
        intro j hj htj
        rw [ht, lookup_append_none _ (hfresh j (List.mem_cons_of_mem i hj) htj)]
        have hne : j ≠ i := fun hji => (List.nodup_cons.mp hnd).1 (hji ▸ hj)
        rw [List.lookup_cons, beq_eq_false_iff_ne.mpr hne]
        rfl
      rw [ih (initStep env g st i) hnd.of_cons hifresh, ht,
        List.filter_cons_of_pos (by simp [hti])]
      simp

/-- C2: after builder construction, the temporary keys are exactly the
distinct reachable `Terminal` node identities, in traversal order, each
appearing once, so the number of temporaries equals the number of
distinct reachable `Terminal` identities. -/
theorem claim_C2 (env : Env) (g : Graph) (root : Nat) (hv : env.variableLayers = false) :
    ∃ r, builderInit env g root = .ok r ∧
      r.temps.map Prod.fst = (traverse_dags g root).filter (isTensorB g) ∧
      (r.temps.map Prod.fst).Nodup ∧
      r.temps.length = ((traverse_dags g root).filter (isTensorB g)).length := by
  have hok : builderInit env g root = .ok ((traverse_dags g root).foldl (initStep env g)
      ⟨[], [], [], counterAdd [] root, traverse_dags g root⟩) := by
    unfold builderInit
    rw [hv]
    rfl
  refine ⟨_, hok, ?_, ?_, ?_⟩
  · have := initFold_temps env g (traverse_dags g root)
      ⟨[], [], [], counterAdd [] root, traverse_dags g root⟩
      ((List.nodup_range _).filter _) (fun i _ _ => rfl)
    simpa using this
  · have := initFold_temps env g (traverse_dags g root)
      ⟨[], [], [], counterAdd [] root, traverse_dags g root⟩
      ((List.nodup_range _).filter _) (fun i _ _ => rfl)
    simp only [List.map, List.nil_append] at this
    rw [this]
    exact ((List.nodup_range _).filter _).filter _
  · have := initFold_temps env g (traverse_dags g root)
      ⟨[], [], [], counterAdd [] root, traverse_dags g root⟩
      ((List.nodup_range _).filter _) (fun i _ _ => rfl)
    simp only [List.map, List.nil_append] at this
    rw [← this, List.length_map]

def envC2 : Env := ⟨fun _ => .simple 3, false, [], fun _ => 3⟩

def gC2 : Graph :=
  ⟨[⟨.tensor, [3, 3], []⟩, ⟨.tensor, [3, 3], []⟩, ⟨.add, [3, 3], [0, 1]⟩]⟩

/-- Witness for C2 on a two-terminal sum. -/
theorem claim_C2_witness :
    ∃ r, builderInit envC2 gC2 2 = .ok r ∧
      r.temps.map Prod.fst = (traverse_dags gC2 2).filter (isTensorB gC2) ∧
      (r.temps.map Prod.fst).Nodup ∧
      r.temps.length = ((traverse_dags gC2 2).filter (isTensorB gC2)).length :=
  claim_C2 envC2 gC2 2 rfl

/- ### Coefficient dedup (C3): helper lemmas about the packing state -/

/-- The coefficient function referenced by node `i`, when `i` is an
`AssembledVector` node. -/
def avFunB (g : Graph) (i : Nat) : Option Nat :=
  match descAt g i with
  | some d =>
    match d.kind with
    | .assembledVector f => some f
    | _ => none
  | none => none

/-- All packing records in the builder's `coefficient_vecs` map. -/
def allCinfos (cv : List (Nat × List CoefficientInfo)) : List CoefficientInfo :=
  (cv.map Prod.snd).flatten

theorem allCinfos_cons (a : Nat) (b : List CoefficientInfo)
    (rest : List (Nat × List CoefficientInfo)) :
    allCinfos ((a, b) :: rest) = b ++ allCinfos rest := rfl

/-- Whether a packing record belongs to coefficient `f` (the underlying
function of its owning vector node). -/
def isForF (g : Graph) (f : Nat) (c : CoefficientInfo) : Bool :=
  avFunB g c.vector == some f

/-- The record list built by the packing loop over an arbitrary triple
list (generalizing `mkCinfos` for induction). -/
def mkCinfosT (total : Nat) (vec : Nat) (tmp : String)
    (ts : List (Nat × Nat × Nat)) : List CoefficientInfo :=
  ts.map fun t => ⟨t.1, t.2.1, total, vec, tmp⟩

/-- The `setdefault`-append fold over an arbitrary triple list
(generalizing `packInto` for induction). -/
def packIntoT (total : Nat) (vec : Nat) (tmp : String)
    (ts : List (Nat × Nat × Nat)) (cv : List (Nat × List CoefficientInfo)) :
    List (Nat × List CoefficientInfo) :=
  ts.foldl (fun acc t => setdefaultAppend t.2.2 ⟨t.1, t.2.1, total, vec, tmp⟩ acc) cv

theorem packInto_eq_packIntoT (shapes : List Nat) (vec : Nat) (tmp : String)
    (cv : List (Nat × List CoefficientInfo)) :
    packInto shapes vec tmp cv = packIntoT shapes.sum vec tmp (packTriples shapes) cv := rfl

theorem head?_append_left {α : Type} {l1 : List α} (l2 : List α) (h : l1 ≠ []) :
    (l1 ++ l2).head? = l1.head? := by
  cases l1 with
  | nil => exact absurd rfl h
  | cons a t => rfl

theorem mem_of_head?_eq {α : Type} {a : α} {l : List α} (h : l.head? = some a) : a ∈ l := by
  cases l with
  | nil => cases h
  | cons b t =>
    rw [List.head?_cons, Option.some.injEq] at h
    subst h
    exact List.mem_cons_self b t

theorem countP_allCinfos_setdefaultAppend (p : CoefficientInfo → Bool)
    (k : Nat) (v : CoefficientInfo) :
    ∀ cv : List (Nat × List CoefficientInfo),
      (allCinfos (setdefaultAppend k v cv)).countP p
        = (allCinfos cv).countP p + if p v then 1 else 0 := by
  intro cv
  induction cv with
  | nil =>
    simp [allCinfos, setdefaultAppend, List.countP_cons]
  | cons q rest ih =>
    obtain ⟨a, b⟩ := q
    by_cases hk : a = k
    · rw [show setdefaultAppend k v ((a, b) :: rest) = (a, b ++ [v]) :: rest by
        simp [setdefaultAppend, hk]]
      rw [allCinfos_cons, allCinfos_cons]
      simp only [List.countP_append, List.countP_cons, List.countP_nil]
      omega
    · rw [show setdefaultAppend k v ((a, b) :: rest) = (a, b) :: setdefaultAppend k v rest by
        simp [setdefaultAppend, hk]]
      rw [allCinfos_cons, allCinfos_cons]
      simp only [List.countP_append]
      rw [ih]
      omega

theorem mem_allCinfos_setdefaultAppend {c : CoefficientInfo} (k : Nat) (v : CoefficientInfo) :
    ∀ cv : List (Nat × List CoefficientInfo),
      (c ∈ allCinfos (setdefaultAppend k v cv) ↔ c ∈ allCinfos cv ∨ c = v) := by
  intro cv
  induction cv with
  | nil => simp [allCinfos, setdefaultAppend]
  | cons q rest ih =>
    obtain ⟨a, b⟩ := q
    by_cases hk : a = k
    · rw [show setdefaultAppend k v ((a, b) :: rest) = (a, b ++ [v]) :: rest by
        simp [setdefaultAppend, hk]]
      rw [allCinfos_cons, allCinfos_cons]
      simp only [List.mem_append, List.mem_singleton]
      tauto
    · rw [show setdefaultAppend k v ((a, b) :: rest) = (a, b) :: setdefaultAppend k v rest by
        simp [setdefaultAppend, hk]]
      rw [allCinfos_cons, allCinfos_cons]
      simp only [List.mem_append]
      rw [ih]
      tauto

theorem countP_allCinfos_packIntoT (p : CoefficientInfo → Bool) (total vec : Nat) (tmp : String) :
    ∀ (ts : List (Nat × Nat × Nat)) (cv : List (Nat × List CoefficientInfo)),
      (allCinfos (packIntoT total vec tmp ts cv)).countP p
        = (allCinfos cv).countP p + (mkCinfosT total vec tmp ts).countP p := by
  intro ts
  induction ts with
  | nil => intro cv; simp [packIntoT, mkCinfosT]
  | cons t rest ih =>
    intro cv
    show (allCinfos (packIntoT total vec tmp rest (setdefaultAppend t.2.2 _ cv))).countP p = _
    rw [ih, countP_allCinfos_setdefaultAppend]
    simp only [mkCinfosT, List.map_cons, List.countP_cons]
    omega

theorem mem_allCinfos_packIntoT {c : CoefficientInfo} (total vec : Nat) (tmp : String) :
    ∀ (ts : List (Nat × Nat × Nat)) (cv : List (Nat × List CoefficientInfo)),
      (c ∈ allCinfos (packIntoT total vec tmp ts cv)
        ↔ c ∈ allCinfos cv ∨ c ∈ mkCinfosT total vec tmp ts) := by
  intro ts
  induction ts with
  | nil => intro cv; simp [packIntoT, mkCinfosT]
  | cons t rest ih =>
    intro cv
    show (c ∈ allCinfos (packIntoT total vec tmp rest (setdefaultAppend t.2.2 _ cv))) ↔ _
    rw [ih, mem_allCinfos_setdefaultAppend]
    simp only [mkCinfosT, List.map_cons, List.mem_cons]
    tauto

theorem mkCinfosT_fields {c : CoefficientInfo} {total vec : Nat} {tmp : String}
    {ts : List (Nat × Nat × Nat)} (h : c ∈ mkCinfosT total vec tmp ts) :
    c.vector = vec ∧ c.local_temp = tmp := by
  rcases List.mem_map.mp h with ⟨t, _, rfl⟩
  exact ⟨rfl, rfl⟩

theorem mkCinfosT_countP (g : Graph) (f : Nat) (total vec : Nat) (tmp : String)
    (ts : List (Nat × Nat × Nat)) :
    (mkCinfosT total vec tmp ts).countP (isForF g f)
      = if avFunB g vec = some f then ts.length else 0 := by
  induction ts with
  | nil => simp [mkCinfosT]
  | cons t rest ih =>
    simp only [mkCinfosT, List.map_cons, List.countP_cons] at *
    rw [ih]
    by_cases hf : avFunB g vec = some f
    · simp [isForF, hf]
    · simp [isForF, hf]

theorem packTriples_length (shapes : List Nat) :
    (packTriples shapes).length = shapes.length := packAux_length

theorem contains_iff_mem {l : List Nat} {a : Nat} : l.contains a = true ↔ a ∈ l := by
  simp [List.elem_eq_mem]

theorem initStep_coeff_none (env : Env) (g : Graph) (st : InitResult) (k : Nat) :
    avFunB g k = none →
    (initStep env g st k).coeffVecs = st.coeffVecs ∧
      (initStep env g st k).seenCoeff = st.seenCoeff := by
  unfold avFunB initStep
  cases descAt g k with
  | none => intro _; exact ⟨rfl, rfl⟩
  | some d =>
    obtain ⟨kind, shape, ops⟩ := d
    cases kind <;> intro h <;> first
      | exact ⟨rfl, rfl⟩
      | (simp at h)

theorem initStep_coeff_seen (env : Env) (g : Graph) (st : InitResult) (k f : Nat) :
    avFunB g k = some f → st.seenCoeff.contains f = true →
    (initStep env g st k).coeffVecs = st.coeffVecs ∧
      (initStep env g st k).seenCoeff = st.seenCoeff := by
  unfold avFunB initStep
  cases descAt g k with
  | none => intro h; cases h
  | some d =>
    obtain ⟨kind, shape, ops⟩ := d
    cases kind <;> intro h hseen <;> try (simp at h)
    case _ f2 =>
      have hf : f2 = f := by simpa using h
      subst hf
      refine ⟨?_, ?_⟩ <;> (dsimp only; rw [if_pos hseen])

theorem initStep_coeff_unseen (env : Env) (g : Graph) (st : InitResult) (k f : Nat) :
    avFunB g k = some f → st.seenCoeff.contains f = false →
    (initStep env g st k).coeffVecs
        = packInto (shapesOf (env.elem f)) k
            ("VecTemp" ++ toString st.seenCoeff.length) st.coeffVecs ∧
      (initStep env g st k).seenCoeff = st.seenCoeff ++ [f] := by
  unfold avFunB initStep
  cases descAt g k with
  | none => intro h; cases h
  | some d =>
    obtain ⟨kind, shape, ops⟩ := d
    cases kind <;> intro h hseen <;> try (simp at h)
    case _ f2 =>
      have hf : f2 = f := by simpa using h
      subst hf
      refine ⟨?_, ?_⟩ <;> (dsimp only; rw [if_neg (by rw [hseen]; exact Bool.false_ne_true)])

/-- The inductive invariant behind the coefficient dedup guarantee: the
seen-set mirrors the coefficients referenced so far, each packed
coefficient owns exactly one block of records, every record points back
to the first `AssembledVector` encounter of its coefficient, and records
of one coefficient share one packed temporary. -/
def InvC3 (env : Env) (g : Graph) (processed : List Nat) (st : InitResult) : Prop :=
  st.seenCoeff.Nodup ∧
  (∀ f : Nat, f ∈ st.seenCoeff ↔ ∃ k ∈ processed, avFunB g k = some f) ∧
  (∀ f : Nat, (allCinfos st.coeffVecs).countP (isForF g f)
      = if f ∈ st.seenCoeff then (shapesOf (env.elem f)).length else 0) ∧
  (∀ c ∈ allCinfos st.coeffVecs, ∀ f : Nat, isForF g f c = true →
      (processed.filter (fun k2 => avFunB g k2 == some f)).head? = some c.vector) ∧
  (∀ f : Nat, ∀ c1 ∈ allCinfos st.coeffVecs, ∀ c2 ∈ allCinfos st.coeffVecs,
      isForF g f c1 = true → isForF g f c2 = true → c1.local_temp = c2.local_temp)

theorem InvC3_step (env : Env) (g : Graph) (processed : List Nat) (st : InitResult) (k : Nat)
    (h : InvC3 env g processed st) : InvC3 env g (processed ++ [k]) (initStep env g st k) := by
  obtain ⟨hnd, hmem, hcnt, hhead, htmp⟩ := h
  cases hav : avFunB g k with
  | none =>
    obtain ⟨hc, hs⟩ := initStep_coeff_none env g st k hav
    refine ⟨hs ▸ hnd, ?_, ?_, ?_, ?_⟩
    · intro f
      rw [hs, hmem f]
      constructor
      · rintro ⟨k2, hk2, ha⟩
        exact ⟨k2, List.mem_append_left _ hk2, ha⟩
      · rintro ⟨k2, hk2, ha⟩
        rcases List.mem_append.mp hk2 with h1 | h1
        · exact ⟨k2, h1, ha⟩
        · rw [List.mem_singleton] at h1
          subst h1
          rw [hav] at ha
          cases ha
    · intro f
      rw [hc, hs]
      exact hcnt f
    · intro c hc2 f hf
      rw [hc] at hc2
      rw [List.filter_append, show [k].filter (fun k2 => avFunB g k2 == some f) = [] by
        simp [hav], List.append_nil]
      exact hhead c hc2 f hf
    · intro f c1 h1 c2 h2 hf1 hf2
      rw [hc] at h1 h2
      exact htmp f c1 h1 c2 h2 hf1 hf2
  | some f1 =>
    cases hseen : st.seenCoeff.contains f1 with
    | true =>
      obtain ⟨hc, hs⟩ := initStep_coeff_seen env g st k f1 hav hseen
      have hf1mem : f1 ∈ st.seenCoeff := contains_iff_mem.mp hseen
      refine ⟨hs ▸ hnd, ?_, ?_, ?_, ?_⟩
      · intro f
        rw [hs, hmem f]
        constructor
        · rintro ⟨k2, hk2, ha⟩
          exact ⟨k2, List.mem_append_left _ hk2, ha⟩
        · rintro ⟨k2, hk2, ha⟩
          rcases List.mem_append.mp hk2 with h1 | h1
          · exact ⟨k2, h1, ha⟩
          · rw [List.mem_singleton] at h1
            subst h1
            rw [hav] at ha
            rw [Option.some.injEq] at ha
            subst ha
            exact (hmem _).mp hf1mem
      · intro f
        rw [hc, hs]
        exact hcnt f
      · intro c hc2 f hf
        rw [hc] at hc2
        rw [List.filter_append]
        by_cases hff : f = f1
        · subst hff
          obtain ⟨k0, hk0, ha0⟩ := (hmem _).mp hf1mem
          have hne : processed.filter (fun k2 => avFunB g k2 == some f) ≠ [] := by
            intro hnil
            have := List.filter_eq_nil_iff.mp hnil k0 hk0
            simp [ha0] at this
          rw [head?_append_left _ hne]
          exact hhead c hc2 f hf
        · rw [show [k].filter (fun k2 => avFunB g k2 == some f) = [] by
            simp [hav]
            omega, List.append_nil]
          exact hhead c hc2 f hf
      · intro f c1 h1 c2 h2 hf1 hf2
        rw [hc] at h1 h2
        exact htmp f c1 h1 c2 h2 hf1 hf2
    | false =>
      obtain ⟨hc, hs⟩ := initStep_coeff_unseen env g st k f1 hav hseen
      have hf1not : f1 ∉ st.seenCoeff := fun hm => by
        rw [contains_iff_mem.mpr hm] at hseen
        cases hseen
      have hcnt1 : (allCinfos st.coeffVecs).countP (isForF g f1) = 0 := by
        rw [hcnt f1, if_neg hf1not]
      have hnorec : ∀ c ∈ allCinfos st.coeffVecs, ¬ isForF g f1 c = true :=
        List.countP_eq_zero.mp hcnt1
      rw [packInto_eq_packIntoT] at hc
      refine ⟨?_, ?_, ?_, ?_, ?_⟩
      · rw [hs]
        exact List.nodup_append.mpr ⟨hnd, List.nodup_singleton f1,
          fun a ha hb => hf1not ((List.mem_singleton.mp hb) ▸ ha)⟩
      · intro f
        rw [hs]
        rw [List.mem_append, List.mem_singleton, hmem f]
        constructor
        · rintro (⟨k2, hk2, ha⟩ | hff)
          · exact ⟨k2, List.mem_append_left _ hk2, ha⟩
          · exact ⟨k, List.mem_append_right _ (List.mem_singleton_self k), hff ▸ hav⟩
        · rintro ⟨k2, hk2, ha⟩
          rcases List.mem_append.mp hk2 with h1 | h1
          · exact Or.inl ⟨k2, h1, ha⟩
          · rw [List.mem_singleton] at h1
            subst h1
            rw [hav, Option.some.injEq] at ha
            exact Or.inr ha.symm
      · intro f
        rw [hc, hs, countP_allCinfos_packIntoT, mkCinfosT_countP, hcnt f]
        by_cases hff : f = f1
        · subst hff
          rw [if_neg hf1not, if_pos hav, if_pos (List.mem_append_right _
            (List.mem_singleton_self f)), packTriples_length]
          omega
        · have : ¬ avFunB g k = some f := by
            rw [hav]
            intro hcon
            rw [Option.some.injEq] at hcon
            exact hff hcon.symm
          rw [if_neg this]
          have hmm : (f ∈ st.seenCoeff ++ [f1]) ↔ f ∈ st.seenCoeff := by
            rw [List.mem_append, List.mem_singleton]
            exact ⟨fun h2 => h2.resolve_right hff, Or.inl⟩
          by_cases hfs : f ∈ st.seenCoeff
          · rw [if_pos hfs, if_pos (hmm.mpr hfs)]
            omega
          · rw [if_neg hfs, if_neg (fun h2 => hfs (hmm.mp h2))]
      · intro c hc2 f hf
        rw [hc] at hc2
        rcases (mem_allCinfos_packIntoT _ _ _ _ _).mp hc2 with hold | hnew
        · by_cases hff : f = f1
          · subst hff
            exact absurd hf (hnorec c hold)
          · rw [List.filter_append, show [k].filter (fun k2 => avFunB g k2 == some f) = [] by
              simp [hav]
              omega, List.append_nil]
            exact hhead c hold f hf
        · obtain ⟨hvec, htm⟩ := mkCinfosT_fields hnew
          unfold isForF at hf
          rw [hvec, hav] at hf
          have hff : f1 = f := by simpa using hf
          subst hff
          have hpnil : processed.filter (fun k2 => avFunB g k2 == some f1) = [] := by
            refine List.filter_eq_nil_iff.mpr (fun k2 hk2 hb => ?_)
            have : avFunB g k2 = some f1 := by simpa using hb
            exact hf1not ((hmem f1).mpr ⟨k2, hk2, this⟩)
          rw [List.filter_append, hpnil, List.nil_append]
          rw [show [k].filter (fun k2 => avFunB g k2 == some f1) = [k] by simp [hav]]
          rw [List.head?_cons, hvec]
      · intro f c1 h1 c2 h2 hf1 hf2
        rw [hc] at h1 h2
        rcases (mem_allCinfos_packIntoT _ _ _ _ _).mp h1 with ho1 | hn1 <;>
          rcases (mem_allCinfos_packIntoT _ _ _ _ _).mp h2 with ho2 | hn2
        · exact htmp f c1 ho1 c2 ho2 hf1 hf2
        · obtain ⟨hvec2, _⟩ := mkCinfosT_fields hn2
          unfold isForF at hf2
          rw [hvec2, hav] at hf2
          have : f1 = f := by simpa using hf2
          subst this
          exact absurd hf1 (hnorec c1 ho1)
        · obtain ⟨hvec1, _⟩ := mkCinfosT_fields hn1
          unfold isForF at hf1
          rw [hvec1, hav] at hf1
          have : f1 = f := by simpa using hf1
          subst this
          exact absurd hf2 (hnorec c2 ho2)
        · obtain ⟨_, ht1⟩ := mkCinfosT_fields hn1
          obtain ⟨_, ht2⟩ := mkCinfosT_fields hn2
          rw [ht1, ht2]

theorem InvC3_fold (env : Env) (g : Graph) :
    ∀ (l : List Nat) (processed : List Nat) (st : InitResult),
      InvC3 env g processed st →
      InvC3 env g (processed ++ l) (l.foldl (initStep env g) st) := by
  intro l
  induction l with
  | nil => intro processed st h; simpa using h
  | cons k l ih =>
    intro processed st h
    rw [List.foldl_cons, show processed ++ k :: l = (processed ++ [k]) ++ l by simp]
    exact ih (processed ++ [k]) (initStep env g st k) (InvC3_step env g processed st k h)

/-- C3: when one coefficient function is referenced by two distinct
`AssembledVector` nodes, the builder packs it exactly once: it enters the
seen-set once, exactly one block of packing records (one per sub-block)
exists for it, all of them point at the first `AssembledVector` encounter
in traversal order, and all of them share one packed temporary. -/
theorem claim_C3 (env : Env) (g : Graph) (root : Nat) (f : Nat)
    (hv : env.variableLayers = false)
    (i j : Nat) (hij : i ≠ j)
    (hi : i ∈ traverse_dags g root) (hj : j ∈ traverse_dags g root)
    (hfi : avFunB g i = some f) (hfj : avFunB g j = some f) :
    ∃ r, builderInit env g root = .ok r ∧
      r.seenCoeff.count f = 1 ∧
      (allCinfos r.coeffVecs).countP (isForF g f) = (shapesOf (env.elem f)).length ∧
      ∃ vec, avFunB g vec = some f ∧
        ((traverse_dags g root).filter (fun k2 => avFunB g k2 == some f)).head? = some vec ∧
        (∀ c ∈ allCinfos r.coeffVecs, isForF g f c = true → c.vector = vec) ∧
        ∃ tmp, ∀ c ∈ allCinfos r.coeffVecs, isForF g f c = true → c.local_temp = tmp := by
  have hok : builderInit env g root = .ok ((traverse_dags g root).foldl (initStep env g)
      ⟨[], [], [], counterAdd [] root, traverse_dags g root⟩) := by
    unfold builderInit
    rw [hv]
    rfl
  have hinv0 : InvC3 env g []
      ⟨[], [], [], counterAdd [] root, traverse_dags g root⟩ := by
    refine ⟨List.nodup_nil, ?_, ?_, ?_, ?_⟩
    · intro f2
      simp
    · intro f2
      simp [allCinfos]
    · intro c hc
      simp [allCinfos] at hc
    · intro f2 c1 h1
      simp [allCinfos] at h1
  have hinv := InvC3_fold env g (traverse_dags g root) []
    ⟨[], [], [], counterAdd [] root, traverse_dags g root⟩ hinv0
  rw [List.nil_append] at hinv
  obtain ⟨hnd, hmem, hcnt, hhead, htmp⟩ := hinv
  refine ⟨_, hok, ?_, ?_, ?_⟩
  · exact List.count_eq_one_of_mem hnd ((hmem f).mpr ⟨i, hi, hfi⟩)
  · rw [hcnt f, if_pos ((hmem f).mpr ⟨i, hi, hfi⟩)]
  · have hif : i ∈ (traverse_dags g root).filter (fun k2 => avFunB g k2 == some f) :=
      List.mem_filter.mpr ⟨hi, by simp [hfi]⟩
    obtain ⟨vec, tl, hvt⟩ := List.exists_cons_of_ne_nil (List.ne_nil_of_mem hif)
    have hhd : ((traverse_dags g root).filter (fun k2 => avFunB g k2 == some f)).head?
        = some vec := by
      rw [hvt]
      rfl
    have hvmem : vec ∈ (traverse_dags g root).filter (fun k2 => avFunB g k2 == some f) := by
      rw [hvt]
      exact List.mem_cons_self vec tl
    have hvf : avFunB g vec = some f := by
      have := (List.mem_filter.mp hvmem).2
      simpa using this
    refine ⟨vec, hvf, hhd, ?_, ?_⟩
    · intro c hc hfc
      have := hhead c hc f hfc
      rw [hhd] at this
      exact (Option.some.injEq _ _ ▸ this).symm
    · by_cases hex : ∃ c0 ∈ allCinfos
          ((traverse_dags g root).foldl (initStep env g)
            ⟨[], [], [], counterAdd [] root, traverse_dags g root⟩).coeffVecs,
          isForF g f c0 = true
      · obtain ⟨c0, hc0, hfc0⟩ := hex
        exact ⟨c0.local_temp, fun c hc hfc => htmp f c hc c0 hc0 hfc hfc0⟩
      · exact ⟨"", fun c hc hfc => absurd ⟨c, hc, hfc⟩ hex⟩

def gC3 : Graph :=
  ⟨[⟨.assembledVector 7, [3], []⟩, ⟨.assembledVector 7, [3], []⟩, ⟨.add, [3], [0, 1]⟩]⟩

def envC3 : Env := ⟨fun _ => .simple 3, false, [7], fun _ => 3⟩

/-- Witness for C3: two `AssembledVector` nodes over function 7. -/
theorem claim_C3_witness :
    ∃ r, builderInit envC3 gC3 2 = .ok r ∧
      r.seenCoeff.count 7 = 1 ∧
      (allCinfos r.coeffVecs).countP (isForF gC3 7) = (shapesOf (envC3.elem 7)).length ∧
      ∃ vec, avFunB gC3 vec = some 7 ∧
        ((traverse_dags gC3 2).filter (fun k2 => avFunB gC3 k2 == some 7)).head? = some vec ∧
        (∀ c ∈ allCinfos r.coeffVecs, isForF gC3 7 c = true → c.vector = vec) ∧
        ∃ tmp, ∀ c ∈ allCinfos r.coeffVecs, isForF gC3 7 c = true → c.local_temp = tmp :=
  claim_C3 envC3 gC3 2 7 rfl 0 1 (by decide) (by decide) (by decide) rfl rfl

/- ### Determinism and graph extensionality (C10) -/

/-- Propositional reachability along descending operand edges. -/
inductive Reach (g : Graph) : Nat → Nat → Prop where
  | self (j : Nat) : Reach g j j
  | step {j c i : Nat} : c ∈ operandsAt g j → c < j → Reach g c i → Reach g j i

theorem reachFuel_of_reach {g : Graph} {j i : Nat} (h : Reach g j i) :
    ∀ f, j < f → reachFuel g f j i = true := by
  induction h with
  | self j2 =>
    intro f hf
    cases f with
    | zero => cases hf
    | succ f2 => simp [reachFuel]
  | step hc hlt hr ih =>
    intro f hf
    cases f with
    | zero => cases hf
    | succ f2 =>
      rename_i j2 c2 i2
      have hcf : c2 < f2 := by omega
      rw [reachFuel, Bool.or_eq_true]
      refine Or.inr (List.any_eq_true.mpr ⟨c2, hc, ?_⟩)
      rw [Bool.and_eq_true, decide_eq_true_iff]
      exact ⟨hlt, ih f2 hcf⟩

theorem reach_of_reachFuel {g : Graph} :
    ∀ {f j i : Nat}, reachFuel g f j i = true → Reach g j i := by
  intro f
  induction f with
  | zero => intro j i h; cases h
  | succ f2 ih =>
    intro j i h
    rw [reachFuel, Bool.or_eq_true] at h
    rcases h with h | h
    · rw [beq_iff_eq] at h
      subst h
      exact .self j
    · obtain ⟨c, hc, hband⟩ := List.any_eq_true.mp h
      rw [Bool.and_eq_true, decide_eq_true_iff] at hband
      exact .step hc hband.1 (ih hband.2)

theorem reachB_iff {g : Graph} {j i : Nat} : reachB g j i = true ↔ Reach g j i :=
  ⟨fun h => reach_of_reachFuel h, fun h => reachFuel_of_reach h (j + 1) (Nat.lt_succ_self j)⟩

theorem Reach.le {g : Graph} {j i : Nat} (h : Reach g j i) : i ≤ j := by
  induction h with
  | self => exact Nat.le_refl _
  | step hc hlt hr ih => omega

theorem Reach.extend {g : Graph} {root j c : Nat} (hrj : Reach g root j)
    (hc : c ∈ operandsAt g j) (hlt : c < j) : Reach g root c := by
  induction hrj with
  | self j2 => exact .step hc hlt (.self c)
  | step hd hdlt hr ih => exact .step hd hdlt (ih hc hlt)

theorem reach_transfer_12 {g1 g2 : Graph} {root : Nat}
    (h : ∀ x, reachB g1 root x = true → descAt g1 x = descAt g2 x) :
    ∀ {j i : Nat}, Reach g1 j i → Reach g1 root j → Reach g2 j i := by
  intro j i hji
  induction hji with
  | self j2 => intro _; exact .self j2
  | step hc hlt hr ih =>
    intro hrj
    rename_i j2 c2 i2
    have hdesc : descAt g1 j2 = descAt g2 j2 := h j2 (reachB_iff.mpr hrj)
    have hop : operandsAt g1 j2 = operandsAt g2 j2 := by
      unfold operandsAt
      rw [hdesc]
    exact .step (hop ▸ hc) hlt (ih (Reach.extend hrj hc hlt))

theorem reach_transfer_21 {g1 g2 : Graph} {root : Nat}
    (h : ∀ x, reachB g1 root x = true → descAt g1 x = descAt g2 x) :
    ∀ {j i : Nat}, Reach g2 j i → Reach g1 root j → Reach g1 j i := by
  intro j i hji
  induction hji with
  | self j2 => intro _; exact .self j2
  | step hc hlt hr ih =>
    intro hrj
    rename_i j2 c2 i2
    have hdesc : descAt g1 j2 = descAt g2 j2 := h j2 (reachB_iff.mpr hrj)
    have hop : operandsAt g1 j2 = operandsAt g2 j2 := by
      unfold operandsAt
      rw [hdesc]
    have hc1 : c2 ∈ operandsAt g1 j2 := by
      rw [hop]
      exact hc
    exact .step hc1 hlt (ih (Reach.extend hrj hc1 hlt))

theorem reach_agree {g1 g2 : Graph} {root : Nat}
    (h : ∀ x, reachB g1 root x = true → descAt g1 x = descAt g2 x) :
    ∀ x, reachB g1 root x = reachB g2 root x := by
  intro x
  cases hr1 : reachB g1 root x with
  | true =>
    have := reach_transfer_12 h (reachB_iff.mp hr1) (.self root)
    exact (reachB_iff.mpr this).symm
  | false =>
    cases hr2 : reachB g2 root x with
    | true =>
      have := reach_transfer_21 h (reachB_iff.mp hr2) (.self root)
      rw [reachB_iff.mpr this] at hr1
      cases hr1
    | false => rfl

theorem descAt_lt {g : Graph} {x : Nat} {d : NodeDesc} (h : descAt g x = some d) :
    x < g.nodes.length := by
  unfold descAt at h
  exact List.get?_eq_some.mp h |>.1

theorem descAt_of_lt {g : Graph} {x : Nat} (h : x < g.nodes.length) :
    ∃ d, descAt g x = some d := by
  unfold descAt
  rcases List.get?_eq_get h ▸ Option.isSome_some with _
  exact ⟨g.nodes.get ⟨x, h⟩, List.get?_eq_get h⟩

theorem traverse_agree {g1 g2 : Graph} {root : Nat}
    (h : ∀ x, reachB g1 root x = true → descAt g1 x = descAt g2 x) :
    traverse_dags g1 root = traverse_dags g2 root := by
  have hre := reach_agree h
  have hperm : List.Perm (traverse_dags g1 root) (traverse_dags g2 root) := by
    refine (List.perm_ext_iff_of_nodup ((List.nodup_range _).filter _)
      ((List.nodup_range _).filter _)).mpr ?_
    intro x
    rw [List.mem_filter, List.mem_filter, List.mem_range, List.mem_range]
    constructor
    · rintro ⟨hlt, hp⟩
      obtain ⟨d, hd⟩ := descAt_of_lt hlt
      have hd2 : descAt g2 x = some d := (h x hp) ▸ hd
      exact ⟨descAt_lt hd2, (hre x) ▸ hp⟩
    · rintro ⟨hlt, hp⟩
      have hp1 : reachB g1 root x = true := (hre x) ▸ hp
      obtain ⟨d, hd⟩ := descAt_of_lt hlt
      have hd1 : descAt g1 x = some d := by
        rw [h x hp1]
        exact hd
      exact ⟨descAt_lt hd1, hp1⟩
  have hs1 : List.Sorted (· ≤ ·) (traverse_dags g1 root) :=
    ((List.pairwise_lt_range _).filter _).imp Nat.le_of_lt
  have hs2 : List.Sorted (· ≤ ·) (traverse_dags g2 root) :=
    ((List.pairwise_lt_range _).filter _).imp Nat.le_of_lt
  exact List.eq_of_perm_of_sorted hperm hs1 hs2

theorem foldl_congr_mem {α β : Type} (f1 f2 : β → α → β) :
    ∀ (l : List α) (s : β), (∀ s2 a, a ∈ l → f1 s2 a = f2 s2 a) →
      l.foldl f1 s = l.foldl f2 s := by
  intro l
  induction l with
  | nil => intro s _; rfl
  | cons a t ih =>
    intro s hcong
    rw [List.foldl_cons, List.foldl_cons, hcong s a (List.mem_cons_self a t)]
    exact ih _ (fun s2 b hb => hcong s2 b (List.mem_cons_of_mem a hb))

/-- C10: the builder's construction outputs (temporary names, packing
records, seen-set, reference counts and the traversal itself) are a pure
function of the reachable part of the expression graph: two graphs that
agree on every node reachable from the root produce identical builders,
so two constructions over the same graph are byte-identical. -/
theorem claim_C10 (env : Env) (g1 g2 : Graph) (root : Nat)
    (h : ∀ x, x ≤ root → reachB g1 root x = true → descAt g1 x = descAt g2 x) :
    builderInit env g1 root = builderInit env g2 root := by
  have h2 : ∀ x, reachB g1 root x = true → descAt g1 x = descAt g2 x :=
    fun x hx => h x (Reach.le (reachB_iff.mp hx)) hx
  have ht := traverse_agree h2
  have hstep : ∀ (st : InitResult) (x : Nat), x ∈ traverse_dags g1 root →
      initStep env g1 st x = initStep env g2 st x := by
    intro st x hx
    have hreach : reachB g1 root x = true := (List.mem_filter.mp hx).2
    have hd := h2 x hreach
    unfold initStep
    rw [hd, show operandsAt g1 x = operandsAt g2 x from by unfold operandsAt; rw [hd]]
  unfold builderInit
  cases henv : env.variableLayers with
  | true => rfl
  | false =>
    simp only [Bool.false_eq_true, if_false]
    rw [foldl_congr_mem (initStep env g1) (initStep env g2) (traverse_dags g1 root) _ hstep,
      ht]

def gC10a : Graph :=
  ⟨[⟨.tensor, [3, 3], []⟩, ⟨.tensor, [3, 3], []⟩, ⟨.mul, [3, 3], [0, 1]⟩]⟩

def gC10b : Graph :=
  ⟨[⟨.tensor, [3, 3], []⟩, ⟨.tensor, [3, 3], []⟩, ⟨.mul, [3, 3], [0, 1]⟩,
    ⟨.tensor, [9, 9], []⟩]⟩

/-- Witness for C10: the same reachable graph, one copy padded with an
unreachable extra node, yields identical builders. -/
theorem claim_C10_witness : builderInit envC2 gC10a 2 = builderInit envC2 gC10b 2 :=
  claim_C10 envC2 gC10a gC10b 2 (by decide)

/- ### Call assembly, flat macro-kernel target (`LocalKernelBuilder._setup`) -/

def supportedIntegralTypes : List String :=
  ["cell", "interior_facet", "exterior_facet",
   "interior_facet_horiz_top", "interior_facet_horiz_bottom",
   "interior_facet_vert", "exterior_facet_top", "exterior_facet_bottom",
   "exterior_facet_vert"]

def supportedSubdomainTypes : List String :=
  ["subdomains_exterior_facet", "subdomains_interior_facet"]

/-- The `subdomain_map` dictionary of `_setup`. -/
def subdomainMap (it : String) : Option String :=
  if it = "exterior_facet" ∨ it = "exterior_facet_vert" then some "subdomains_exterior_facet"
  else if it = "interior_facet" ∨ it = "interior_facet_vert" then some "subdomains_interior_facet"
  else none

/-- Integral types that get the facet-index argument appended. -/
def facetIntegralTypes : List String :=
  ["interior_facet", "exterior_facet", "interior_facet_vert", "exterior_facet_vert"]

def coordSym : String := "coords"

def cellOrientationsSym : String := "cell_orientations"

def facetArgSym : String := "&i0"

def cellSizeSym : String := "cell_sizes"

/-- The metadata each TSFC sub-kernel carries (`kinfo`). -/
structure KernelInfo where
  integral_type : String
  oriented : Bool
  needs_cell_sizes : Bool
  coefficient_map : List Nat
  subdomain_id : Option Nat
  kernel_name : String
  kernel_code : String
  include_dirs : List String
deriving DecidableEq

/-- One split kernel: block indices plus its `kinfo`. -/
structure SplitKernel where
  indices : List Nat
  kinfo : KernelInfo
deriving DecidableEq

/-- A context kernel as produced by the external form compiler, together
with the mesh-derived data the builders read off it. -/
structure ContextKernel where
  coefficients : List Nat
  original_integral_type : String
  tensor : Nat
  tensorIsMixed : Bool
  coordinates : Nat
  meshCellOrientations : Nat
  meshCellSizes : Nat
  tsfc_kernels : List SplitKernel
deriving DecidableEq

/-- A flat-target call record: `FunCall(name, tensor, coords, *args)`,
with the output temporary split into its name and block indices. -/
structure FunCallRec where
  kernel_name : String
  tensor_temp : String
  tensor_indices : List Nat
  args : List String
deriving DecidableEq

/-- A bucket entry: a plain call, or a `(subdomain_id, call)` pair. -/
inductive BucketEntry where
  | plain (c : FunCallRec)
  | restricted (sd_id : Nat) (c : FunCallRec)
deriving DecidableEq

structure FlatState where
  include_dirs : List String
  templated_subkernels : List String
  assembly_calls : List (String × List BucketEntry)
  subdomain_calls : List (String × List BucketEntry)
  coords : Option Nat
  oriented : Bool
  needs_cell_sizes : Bool
deriving DecidableEq

/-- The pre-seeded bucket maps: one (empty) entry per supported integral
type and per supported subdomain type. -/
def flatInit : FlatState :=
  ⟨[], [], supportedIntegralTypes.map (fun it => (it, [])),
    supportedSubdomainTypes.map (fun sd => (sd, [])), none, false, false⟩

/-- `d[key].append(v)` on an association list: fails (Python `KeyError`)
when the key is absent. -/
def appendAt {β : Type} (k : String) (v : β) :
    List (String × List β) → Option (List (String × List β))
  | [] => none
  | p :: rest =>
    if p.1 = k then some ((p.1, p.2 ++ [v]) :: rest)
    else (appendAt k v rest).map (p :: ·)

/-- The `coefficient_map` cached property: `w_i` symbols for plain
coefficients, `w_i_j` per split component for mixed ones. -/
def coefficient_map (env : Env) : List (Nat × List String) :=
  env.exprCoefficients.enum.map fun p =>
    match env.elem p.2 with
    | .mixed ds =>
      (p.2, (List.range ds.length).map
        (fun j => "w_" ++ toString p.1 ++ "_" ++ toString j))
    | .simple _ => (p.2, ["w_" ++ toString p.1])

/-- The coefficient-argument comprehension of `_setup`: indexes the
local coefficient list and resolves each through `coefficient_map`. -/
def flatCoeffArgs (env : Env) (coeffs : List Nat) :
    List Nat → Except SlateError (List String)
  | [] => .ok []
  | i :: rest =>
    match coeffs.get? i with
    | none => .error .indexError
    | some f =>
      match (coefficient_map env).lookup f with
      | none => .error .keyError
      | some syms =>
        match flatCoeffArgs env coeffs rest with
        | .error e => .error e
        | .ok tail => .ok (syms ++ tail)

/-- Routing of one call: a non-default subdomain goes to the parallel
subdomain bucket (only facet types have one), a default call to the
plain bucket of its originating integral type. -/
def flatRoute (st : FlatState) (it : String) (kint : String) (sd : Option Nat)
    (call : FunCallRec) : Except SlateError FlatState :=
  match sd with
  | some sd_id =>
    match subdomainMap kint with
    | none => .error (.subdomainNotImplemented kint)
    | some sd_key =>
      match appendAt sd_key (.restricted sd_id call) st.subdomain_calls with
      | some sc => .ok { st with subdomain_calls := sc }
      | none => .error .keyError
  | none =>
    match appendAt it (.plain call) st.assembly_calls with
    | some ac => .ok { st with assembly_calls := ac }
    | none => .error .keyError

/-- Processing of one split kernel in the flat target: argument
marshalling, call construction, routing, then code/include/flag
accumulation. -/
def flatInner (env : Env) (temps : List (Nat × String)) (ck : ContextKernel)
    (st : FlatState) (sk : SplitKernel) : Except SlateError FlatState :=
  let kinfo := sk.kinfo
  let st1 : FlatState :=
    { st with needs_cell_sizes := st.needs_cell_sizes || kinfo.needs_cell_sizes }
  match flatCoeffArgs env ck.coefficients kinfo.coefficient_map with
  | .error e => .error e
  | .ok args0 =>
    let args1 := if kinfo.oriented then cellOrientationsSym :: args0 else args0
    let args2 :=
      if facetIntegralTypes.contains kinfo.integral_type then args1 ++ [facetArgSym] else args1
    let args3 := if kinfo.needs_cell_sizes then args2 ++ [cellSizeSym] else args2
    match temps.lookup ck.tensor with
    | none => .error .keyError
    | some tmp =>
      let call : FunCallRec := ⟨kinfo.kernel_name, tmp, sk.indices, coordSym :: args3⟩
      match flatRoute st1 ck.original_integral_type kinfo.integral_type
          kinfo.subdomain_id call with
      | .error e => .error e
      | .ok st2 =>
        .ok { st2 with
          templated_subkernels := st2.templated_subkernels ++ [kinfo.kernel_code],
          include_dirs := st2.include_dirs ++ kinfo.include_dirs,
          oriented := st2.oriented || kinfo.oriented }

/-- Processing of one context kernel in the flat target: integral-type
validation, coordinate consistency, then the split-kernel loop. -/
def flatCk (env : Env) (temps : List (Nat × String)) (st : FlatState)
    (ck : ContextKernel) : Except SlateError FlatState :=
  if supportedIntegralTypes.contains ck.original_integral_type then
    match st.coords with
    | some c =>
      if c = ck.coordinates then ck.tsfc_kernels.foldlM (flatInner env temps ck) st
      else .error .mismatchingCoordinates
    | none =>
      ck.tsfc_kernels.foldlM (flatInner env temps ck)
        { st with coords := some ck.coordinates }
  else .error (.unsupportedIntegralType ck.original_integral_type)

def flatSetupLoop (env : Env) (temps : List (Nat × String)) (cks : List ContextKernel)
    (st : FlatState) : Except SlateError FlatState :=
  cks.foldlM (flatCk env temps) st

/-- Python `dict.update`: existing keys are overwritten in place, new
keys appended in the updating dict's order. -/
def dictUpdate {β : Type} (m s : List (String × β)) : List (String × β) :=
  m.map (fun p => (p.1,
    match s.lookup p.1 with
    | some v => v
    | none => p.2))
    ++ s.filter (fun p => (m.lookup p.1).isNone)

structure FlatResult where
  assembly_calls : List (String × List BucketEntry)
  templated_subkernels : List String
  include_dirs : List String
  oriented : Bool
  needs_cell_sizes : Bool
deriving DecidableEq

/-- The tail of `_setup`: merge the subdomain buckets into the main
bucket map and dedup the include directories. -/
def flatFinalize (st : FlatState) : FlatResult :=
  ⟨dictUpdate st.assembly_calls st.subdomain_calls,
    st.templated_subkernels, st.include_dirs.eraseDups, st.oriented, st.needs_cell_sizes⟩

def flatSetup (env : Env) (temps : List (Nat × String)) (cks : List ContextKernel) :
    Except SlateError FlatResult :=
  (flatSetupLoop env temps cks flatInit).map flatFinalize

/- ### Call assembly, structured-loop target (`LocalLoopyKernelBuilder._setup`) -/

def loopyCoordArg : String := "coords"

def loopyOrientationsArg : String := "orientations"

def loopyCellSizeArg : String := "cell_sizes"

/-- A structured-loop call record (`loopy.CallInstruction`): output
temporary, callee name and the read arguments. -/
structure LoopyCall where
  kernel_name : String
  output : String
  reads : List String
deriving DecidableEq

structure LoopyState where
  include_dirs : List String
  templated_subkernels : List String
  assembly_calls : List (String × List LoopyCall)
  subdomain_calls : List (String × List LoopyCall)
  coords : Option Nat
  needs_cell_orientations : Bool
  needs_cell_sizes : Bool
  needs_cell_facets : Bool
  needs_mesh_layers : Bool
  indices : List (String × Nat)
  lastIntegralType : Option String
  lastOriented : Option Bool
  lastReads : Option (List String)
deriving DecidableEq

def loopyInit : LoopyState :=
  ⟨[], [], supportedIntegralTypes.map (fun it => (it, [])),
    supportedSubdomainTypes.map (fun sd => (sd, [])), none,
    false, false, false, false, [], none, none, none⟩

/-- Processing of one split kernel in the structured-loop target.  The
kernel code and include dirs are recorded first; a mixed output then
fails; the coefficient part of `kernel_data` always fails when any local
coefficient exists, because the source indexes `coefficient_vecs` (keyed
by block sizes) with the coefficient itself; only cell integrals are
handled, any other validated type hits the trailing `Unhandled integral
type` failure before a call record is filed. -/
def loopyInner (env : Env) (ck : ContextKernel) (tempName : String)
    (st : LoopyState) (sk : SplitKernel) : Except SlateError LoopyState :=
  let kinfo := sk.kinfo
  let st1 : LoopyState := { st with
    templated_subkernels := st.templated_subkernels ++ [kinfo.kernel_code],
    include_dirs := st.include_dirs ++ kinfo.include_dirs }
  if ck.tensorIsMixed then .error .mixedNotSupported
  else
    let output := tempName
    let st2 : LoopyState :=
      if kinfo.oriented then { st1 with needs_cell_orientations := true } else st1
    let st3 : LoopyState :=
      if kinfo.needs_cell_sizes then { st2 with needs_cell_sizes := true } else st2
    let kernelData : List (Nat × String) :=
      [(ck.coordinates, loopyCoordArg)]
        ++ (if kinfo.oriented then [(ck.meshCellOrientations, loopyOrientationsArg)] else [])
        ++ (if kinfo.needs_cell_sizes then [(ck.meshCellSizes, loopyCellSizeArg)] else [])
    if kinfo.coefficient_map.any (fun i => ck.coefficients.length ≤ i) then .error .indexError
    else if kinfo.coefficient_map.isEmpty = false then .error .keyError
    else
      let st4 : LoopyState := { st3 with
        indices := st3.indices ++ kernelData.map (fun p => ("i0", env.extent p.1)) }
      let reads := kernelData.map Prod.snd
      if ck.original_integral_type = "cell" then
        match kinfo.subdomain_id with
        | some _ => .error .cellSubdomainNotImplemented
        | none =>
          match appendAt ck.original_integral_type
              (⟨kinfo.kernel_name, output, reads⟩ : LoopyCall) st4.assembly_calls with
          | some ac =>
            .ok { st4 with
              assembly_calls := ac,
              lastOriented := some kinfo.oriented,
              lastReads := some reads }
          | none => .error .keyError
      else .error (.unhandledIntegralType ck.original_integral_type)

/-- Processing of one context kernel in the structured-loop target: the
temporary lookup comes first, then the integral-type validation and the
coordinate consistency check, then the split-kernel loop. -/
def loopyCk (env : Env) (temps : List (Nat × String)) (st : LoopyState)
    (ck : ContextKernel) : Except SlateError LoopyState :=
  match temps.lookup ck.tensor with
  | none => .error .keyError
  | some tempName =>
    if supportedIntegralTypes.contains ck.original_integral_type then
      let st1 : LoopyState := { st with lastIntegralType := some ck.original_integral_type }
      match st1.coords with
      | some c =>
        if c = ck.coordinates then ck.tsfc_kernels.foldlM (loopyInner env ck tempName) st1
        else .error .mismatchingCoordinates
      | none =>
        ck.tsfc_kernels.foldlM (loopyInner env ck tempName)
          { st1 with coords := some ck.coordinates }
    else .error (.unsupportedIntegralType ck.original_integral_type)

def loopySetupLoop (env : Env) (temps : List (Nat × String)) (cks : List ContextKernel)
    (st : LoopyState) : Except SlateError LoopyState :=
  cks.foldlM (loopyCk env temps) st

structure LoopyResult where
  assembly_calls : List (String × List LoopyCall)
  templated_subkernels : List String
  include_dirs : List String
  needs_cell_orientations : Bool
  needs_cell_sizes : Bool
  needs_cell_facets : Bool
  needs_mesh_layers : Bool
  indices : List (String × Nat)
  integral_type : String
  oriented : Bool
  reads : List String
deriving DecidableEq

/-- The tail of the structured-loop `_setup`: it publishes the loop
variables `integral_type`, `kinfo.oriented` and `reads` of the last
iteration, a `NameError` when the loops never ran; the subdomain buckets
are never merged back (unlike the flat target). -/
def loopyFinalize (st : LoopyState) : Except SlateError LoopyResult :=
  match st.lastIntegralType, st.lastOriented, st.lastReads with
  | some it, some ori, some rds =>
    .ok ⟨st.assembly_calls, st.templated_subkernels, st.include_dirs.eraseDups,
      st.needs_cell_orientations, st.needs_cell_sizes, st.needs_cell_facets,
      st.needs_mesh_layers, st.indices, it, ori, rds⟩
  | _, _, _ => .error .nameError

def loopySetup (env : Env) (temps : List (Nat × String)) (cks : List ContextKernel) :
    Except SlateError LoopyResult :=
  (loopySetupLoop env temps cks loopyInit).bind loopyFinalize

/- ### Association-list lemmas for the bucket maps -/

theorem lookup_append_str {β : Type} (l1 l2 : List (String × β)) (k : String) :
    (l1 ++ l2).lookup k
      = match l1.lookup k with
        | some v => some v
        | none => l2.lookup k := by
  induction l1 with
  | nil => rfl
  | cons p rest ih =>
    obtain ⟨a, b⟩ := p
    rw [List.cons_append, List.lookup_cons, List.lookup_cons]
    cases hk : (k == a) with
    | true => rfl
    | false => exact ih

theorem lookup_eq_none_of_not_mem_keys {β : Type} {l : List (String × β)} {k : String}
    (h : k ∉ l.map Prod.fst) : l.lookup k = none := by
  induction l with
  | nil => rfl
  | cons p rest ih =>
    obtain ⟨a, b⟩ := p
    rw [List.map_cons, List.mem_cons] at h
    push_neg at h
    rw [List.lookup_cons, beq_eq_false_iff_ne.mpr h.1]
    exact ih h.2

theorem lookup_isSome_of_mem_keys {β : Type} {l : List (String × β)} {k : String}
    (h : k ∈ l.map Prod.fst) : (l.lookup k).isSome = true := by
  induction l with
  | nil => cases h
  | cons p rest ih =>
    obtain ⟨a, b⟩ := p
    rw [List.map_cons, List.mem_cons] at h
    rw [List.lookup_cons]
    by_cases hk : k = a
    · rw [beq_iff_eq.mpr hk]
      rfl
    · rw [beq_eq_false_iff_ne.mpr hk]
      exact ih (h.resolve_left hk)

theorem lookup_dictMap {β : Type} (s : List (String × β)) (k : String) :
    ∀ m : List (String × β),
      (m.map (fun p => (p.1,
        match s.lookup p.1 with
        | some v => v
        | none => p.2))).lookup k
        = (m.lookup k).map (fun b =>
            match s.lookup k with
            | some v => v
            | none => b) := by
  intro m
  induction m with
  | nil => rfl
  | cons p rest ih =>
    obtain ⟨a, b⟩ := p
    rw [List.map_cons, List.lookup_cons, List.lookup_cons]
    by_cases hk : k = a
    · subst hk
      rw [beq_self_eq_true]
      rfl
    · rw [beq_eq_false_iff_ne.mpr hk]
      exact ih

theorem not_mem_keys_of_lookup_none {β : Type} {l : List (String × β)} {k : String}
    (h : l.lookup k = none) : k ∉ l.map Prod.fst := by
  intro hmem
  have := lookup_isSome_of_mem_keys hmem
  rw [h] at this
  cases this

theorem lookup_filter_none {β : Type} (p : String × β → Bool) {s : List (String × β)}
    {k : String} (hs : s.lookup k = none) : (s.filter p).lookup k = none := by
  apply lookup_eq_none_of_not_mem_keys
  intro hmem
  obtain ⟨q, hq, hqk⟩ := List.mem_map.mp hmem
  exact not_mem_keys_of_lookup_none hs
    (hqk ▸ List.mem_map_of_mem Prod.fst (List.mem_of_mem_filter hq))

theorem lookup_filter_keyholds {β : Type} {p : String × β → Bool} {s : List (String × β)}
    {k : String} (h : ∀ q ∈ s, q.1 = k → p q = true) :
    (s.filter p).lookup k = s.lookup k := by
  induction s with
  | nil => rfl
  | cons q rest ih =>
    obtain ⟨a, b⟩ := q
    by_cases hk : a = k
    · subst hk
      rw [List.filter_cons_of_pos (h (a, b) (List.mem_cons_self _ _) rfl)]
      rw [List.lookup_cons, List.lookup_cons, beq_self_eq_true]
    · have hne : (a == k) = false := beq_eq_false_iff_ne.mpr hk
      have hkne : (k == a) = false := beq_eq_false_iff_ne.mpr (fun hq => hk hq.symm)
      cases hp : p (a, b) with
      | true =>
        rw [List.filter_cons_of_pos hp, List.lookup_cons, List.lookup_cons, hkne]
        exact ih (fun q2 hq2 hq2k => h q2 (List.mem_cons_of_mem _ hq2) hq2k)
      | false =>
        rw [List.filter_cons_of_neg (by simp [hp]), List.lookup_cons, hkne]
        exact ih (fun q2 hq2 hq2k => h q2 (List.mem_cons_of_mem _ hq2) hq2k)

theorem dictUpdate_lookup_left {β : Type} {m s : List (String × β)} {k : String}
    (hs : s.lookup k = none) : (dictUpdate m s).lookup k = m.lookup k := by
  unfold dictUpdate
  rw [lookup_append_str, lookup_dictMap s k m, hs]
  cases hm : m.lookup k with
  | some v => rfl
  | none =>
    simp only [Option.map_none']
    exact lookup_filter_none _ hs

theorem dictUpdate_lookup_right {β : Type} {m s : List (String × β)} {k : String}
    (hm : m.lookup k = none) : (dictUpdate m s).lookup k = s.lookup k := by
  unfold dictUpdate
  rw [lookup_append_str, lookup_dictMap s k m, hm]
  simp only [Option.map_none']
  exact lookup_filter_keyholds (fun q _ hqk => by
    rw [hqk, hm]
    rfl)

/- ### Bucket-key preservation through the flat setup loop (C5) -/

theorem appendAt_keys {β : Type} (k : String) (v : β) :
    ∀ l l' : List (String × List β), appendAt k v l = some l' →
      l'.map Prod.fst = l.map Prod.fst := by
  intro l
  induction l with
  | nil => intro l' h; cases h
  | cons p rest ih =>
    intro l' h
    unfold appendAt at h
    by_cases hk : p.1 = k
    · rw [if_pos hk, Option.some.injEq] at h
      subst h
      rfl
    · rw [if_neg hk] at h
      cases happ : appendAt k v rest with
      | none =>
        rw [happ] at h
        cases h
      | some rest2 =>
        rw [happ, Option.map_some'] at h
        rw [Option.some.injEq] at h
        subst h
        rw [List.map_cons, List.map_cons, ih rest2 happ]

theorem flatRoute_keys {st : FlatState} {it kint : String} {sd : Option Nat}
    {call : FunCallRec} {st' : FlatState}
    (h : flatRoute st it kint sd call = .ok st') :
    st'.assembly_calls.map Prod.fst = st.assembly_calls.map Prod.fst ∧
      st'.subdomain_calls.map Prod.fst = st.subdomain_calls.map Prod.fst := by
  unfold flatRoute at h
  cases sd with
  | some sd_id =>
    dsimp only at h
    cases hmap : subdomainMap kint with
    | none =>
      rw [hmap] at h
      cases h
    | some sd_key =>
      rw [hmap] at h
      dsimp only at h
      cases happ : appendAt sd_key (.restricted sd_id call) st.subdomain_calls with
      | none =>
        rw [happ] at h
        cases h
      | some sc =>
        rw [happ] at h
        rw [Except.ok.injEq] at h
        subst h
        exact ⟨rfl, appendAt_keys _ _ _ _ happ⟩
  | none =>
    dsimp only at h
    cases happ : appendAt it (.plain call) st.assembly_calls with
    | none =>
      rw [happ] at h
      cases h
    | some ac =>
      rw [happ] at h
      rw [Except.ok.injEq] at h
      subst h
      exact ⟨appendAt_keys _ _ _ _ happ, rfl⟩

theorem flatInner_keys {env : Env} {temps : List (Nat × String)} {ck : ContextKernel}
    {st : FlatState} {sk : SplitKernel} {st' : FlatState}
    (h : flatInner env temps ck st sk = .ok st') :
    st'.assembly_calls.map Prod.fst = st.assembly_calls.map Prod.fst ∧
      st'.subdomain_calls.map Prod.fst = st.subdomain_calls.map Prod.fst := by
  unfold flatInner at h
  dsimp only at h
  split at h
  · cases h
  · split at h
    · cases h
    · split at h
      · cases h
      · rw [Except.ok.injEq] at h
        subst h
        rename_i st2 heq
        obtain ⟨h1, h2⟩ := flatRoute_keys heq
        exact ⟨h1, h2⟩

theorem foldlM_flatInner_keys (env : Env) (temps : List (Nat × String)) (ck : ContextKernel) :
    ∀ (sks : List SplitKernel) (st st' : FlatState),
      sks.foldlM (flatInner env temps ck) st = .ok st' →
      st'.assembly_calls.map Prod.fst = st.assembly_calls.map Prod.fst ∧
        st'.subdomain_calls.map Prod.fst = st.subdomain_calls.map Prod.fst := by
  intro sks
  induction sks with
  | nil =>
    intro st st' h
    rw [List.foldlM_nil] at h
    cases h
    exact ⟨rfl, rfl⟩
  | cons sk rest ih =>
    intro st st' h
    rw [List.foldlM_cons] at h
    cases h1 : flatInner env temps ck st sk with
    | error e =>
      rw [h1] at h
      cases h
    | ok st1 =>
      rw [h1] at h
      have h2 : rest.foldlM (flatInner env temps ck) st1 = .ok st' := h
      obtain ⟨ha1, hs1⟩ := flatInner_keys h1
      obtain ⟨ha2, hs2⟩ := ih st1 st' h2
      exact ⟨ha2.trans ha1, hs2.trans hs1⟩

theorem flatCk_keys {env : Env} {temps : List (Nat × String)} {st : FlatState}
    {ck : ContextKernel} {st' : FlatState} (h : flatCk env temps st ck = .ok st') :
    st'.assembly_calls.map Prod.fst = st.assembly_calls.map Prod.fst ∧
      st'.subdomain_calls.map Prod.fst = st.subdomain_calls.map Prod.fst := by
  unfold flatCk at h
  split at h
  · split at h
    · split at h
      · exact foldlM_flatInner_keys env temps ck ck.tsfc_kernels st st' h
      · cases h
    · obtain ⟨h1, h2⟩ := foldlM_flatInner_keys env temps ck ck.tsfc_kernels _ st' h
      exact ⟨h1, h2⟩
  · cases h

theorem flatSetupLoop_keys (env : Env) (temps : List (Nat × String)) :
    ∀ (cks : List ContextKernel) (st st' : FlatState),
      flatSetupLoop env temps cks st = .ok st' →
      st'.assembly_calls.map Prod.fst = st.assembly_calls.map Prod.fst ∧
        st'.subdomain_calls.map Prod.fst = st.subdomain_calls.map Prod.fst := by
  intro cks
  induction cks with
  | nil =>
    intro st st' h
    unfold flatSetupLoop at h
    rw [List.foldlM_nil] at h
    cases h
    exact ⟨rfl, rfl⟩
  | cons ck rest ih =>
    intro st st' h
    unfold flatSetupLoop at h
    rw [List.foldlM_cons] at h
    cases h1 : flatCk env temps st ck with
    | error e =>
      rw [h1] at h
      cases h
    | ok st1 =>
      rw [h1] at h
      obtain ⟨ha1, hs1⟩ := flatCk_keys h1
      obtain ⟨ha2, hs2⟩ := ih st1 st' h
      exact ⟨ha2.trans ha1, hs2.trans hs1⟩

theorem flatInit_assembly_keys :
    flatInit.assembly_calls.map Prod.fst = supportedIntegralTypes := rfl

theorem flatInit_subdomain_keys :
    flatInit.subdomain_calls.map Prod.fst = supportedSubdomainTypes := rfl

/-- C5: whenever the flat setup loop succeeds, its bucket map holds an
entry (possibly empty) for every supported integral type; the final
merge of the subdomain buckets leaves every plain per-type bucket
untouched and makes the subdomain buckets reachable under their own
keys. -/
theorem claim_C5 (env : Env) (temps : List (Nat × String)) (cks : List ContextKernel)
    (st : FlatState) (h : flatSetupLoop env temps cks flatInit = .ok st) :
    (∀ it ∈ supportedIntegralTypes, (st.assembly_calls.lookup it).isSome = true) ∧
    (∀ it ∈ supportedIntegralTypes,
      (flatFinalize st).assembly_calls.lookup it = st.assembly_calls.lookup it) ∧
    (∀ sd ∈ supportedSubdomainTypes,
      (flatFinalize st).assembly_calls.lookup sd = st.subdomain_calls.lookup sd) := by
  obtain ⟨hak, hsk⟩ := flatSetupLoop_keys env temps cks flatInit st h
  rw [flatInit_assembly_keys] at hak
  rw [flatInit_subdomain_keys] at hsk
  have hdisj1 : ∀ it ∈ supportedIntegralTypes, it ∉ supportedSubdomainTypes := by decide
  have hdisj2 : ∀ sd ∈ supportedSubdomainTypes, sd ∉ supportedIntegralTypes := by decide
  refine ⟨?_, ?_, ?_⟩
  · intro it hit
    exact lookup_isSome_of_mem_keys (hak ▸ hit)
  · intro it hit
    exact dictUpdate_lookup_left
      (lookup_eq_none_of_not_mem_keys (hsk ▸ hdisj1 it hit))
  · intro sd hsd
    exact dictUpdate_lookup_right
      (lookup_eq_none_of_not_mem_keys (hak ▸ hdisj2 sd hsd))

def envSetup : Env := ⟨fun _ => .simple 3, false, [], fun _ => 3⟩

/-- Witness for C5 at the empty context-kernel list. -/
theorem claim_C5_witness :
    (∀ it ∈ supportedIntegralTypes, (flatInit.assembly_calls.lookup it).isSome = true) ∧
    (∀ it ∈ supportedIntegralTypes,
      (flatFinalize flatInit).assembly_calls.lookup it = flatInit.assembly_calls.lookup it) ∧
    (∀ sd ∈ supportedSubdomainTypes,
      (flatFinalize flatInit).assembly_calls.lookup sd = flatInit.subdomain_calls.lookup sd) :=
  claim_C5 envSetup [] [] flatInit rfl

/- ### Unsupported integral types (C6), mixed outputs (C9), divergence (C1) -/

/-- C6: in both lowering targets, a context kernel whose originating
integral type is outside the supported set makes call assembly fail with
the error identifying the offending type, as soon as that kernel is
reached (any earlier kernels having processed cleanly; the structured
target looks up the output temporary first, so that lookup must
succeed). -/
theorem claim_C6 (env : Env) (tempsF tempsL : List (Nat × String))
    (cks rest : List ContextKernel) (ck : ContextKernel)
    (hit : supportedIntegralTypes.contains ck.original_integral_type = false) :
    (∀ st : FlatState, flatSetupLoop env tempsF cks flatInit = .ok st →
      flatSetupLoop env tempsF (cks ++ ck :: rest) flatInit
        = .error (.unsupportedIntegralType ck.original_integral_type)) ∧
    (∀ st : LoopyState, loopySetupLoop env tempsL cks loopyInit = .ok st →
      (tempsL.lookup ck.tensor).isSome = true →
      loopySetup env tempsL (cks ++ ck :: rest)
        = .error (.unsupportedIntegralType ck.original_integral_type)) := by
  constructor
  · intro st hpre
    have hck : flatCk env tempsF st ck
        = .error (.unsupportedIntegralType ck.original_integral_type) := by
      unfold flatCk
      rw [hit]
      rfl
    unfold flatSetupLoop at hpre ⊢
    rw [List.foldlM_append, hpre]
    show ((ck :: rest).foldlM (flatCk env tempsF) st) = _
    rw [List.foldlM_cons, hck]
    rfl
  · intro st hpre hlook
    obtain ⟨tmp, htmp⟩ := Option.isSome_iff_exists.mp hlook
    have hck : loopyCk env tempsL st ck
        = .error (.unsupportedIntegralType ck.original_integral_type) := by
      unfold loopyCk
      rw [htmp]
      dsimp only
      rw [hit]
      rfl
    have hloop : loopySetupLoop env tempsL (cks ++ ck :: rest) loopyInit
        = .error (.unsupportedIntegralType ck.original_integral_type) := by
      unfold loopySetupLoop at hpre ⊢
      rw [List.foldlM_append, hpre]
      show ((ck :: rest).foldlM (loopyCk env tempsL) st) = _
      rw [List.foldlM_cons, hck]
      rfl
    unfold loopySetup
    rw [hloop]
    rfl

def ckBadC6 : ContextKernel :=
  ⟨[], "vertex", 0, false, 5, 6, 7,
    [⟨[], ⟨"vertex", false, false, [], none, "sk0", "code0", []⟩⟩]⟩

def tempsC6 : List (Nat × String) := [(0, "T0")]

/-- Witness for C6 at a concrete unsupported integral type. -/
theorem claim_C6_witness :
    flatSetupLoop envSetup tempsC6 ([] ++ ckBadC6 :: []) flatInit
      = .error (.unsupportedIntegralType "vertex") ∧
    loopySetup envSetup tempsC6 ([] ++ ckBadC6 :: [])
      = .error (.unsupportedIntegralType "vertex") :=
  ⟨(claim_C6 envSetup tempsC6 tempsC6 [] [] ckBadC6 (by decide)).1 flatInit rfl,
    (claim_C6 envSetup tempsC6 tempsC6 [] [] ckBadC6 (by decide)).2 loopyInit rfl (by decide)⟩

/-- C9: in the structured-loop target, a context kernel over a mixed
(composite) output makes call assembly fail with the fatal
mixed-unsupported error at its first split kernel, before any call
record for that kernel is produced: whatever the trailing kernels are,
the whole setup returns the error and no output buckets. -/
theorem claim_C9 (env : Env) (tempsL : List (Nat × String))
    (cks rest : List ContextKernel) (ck : ContextKernel) (st : LoopyState)
    (hpre : loopySetupLoop env tempsL cks loopyInit = .ok st)
    (hlook : (tempsL.lookup ck.tensor).isSome = true)
    (hsup : supportedIntegralTypes.contains ck.original_integral_type = true)
    (hcoords : st.coords = none ∨ st.coords = some ck.coordinates)
    (hmixed : ck.tensorIsMixed = true)
    (hker : ck.tsfc_kernels ≠ []) :
    loopySetup env tempsL (cks ++ ck :: rest) = .error .mixedNotSupported := by
  obtain ⟨tmp, htmp⟩ := Option.isSome_iff_exists.mp hlook
  obtain ⟨sk, sks, hsks⟩ := List.exists_cons_of_ne_nil hker
  have hinner : ∀ st2 : LoopyState,
      loopyInner env ck tmp st2 sk = .error .mixedNotSupported := by
    intro st2
    unfold loopyInner
    dsimp only
    rw [if_pos hmixed]
  have hck : loopyCk env tempsL st ck = .error .mixedNotSupported := by
    unfold loopyCk
    rw [htmp]
    dsimp only
    rw [if_pos hsup]
    rcases hcoords with hco | hco
    · rw [hco]
      dsimp only
      rw [hsks, List.foldlM_cons, hinner _]
      rfl
    · rw [hco]
      dsimp only
      rw [if_pos rfl]
      rw [hsks, List.foldlM_cons, hinner _]
      rfl
  have hloop : loopySetupLoop env tempsL (cks ++ ck :: rest) loopyInit
      = .error .mixedNotSupported := by
    unfold loopySetupLoop at hpre ⊢
    rw [List.foldlM_append, hpre]
    show ((ck :: rest).foldlM (loopyCk env tempsL) st) = _
    rw [List.foldlM_cons, hck]
    rfl
  unfold loopySetup
  rw [hloop]
  rfl

def ckMixedC9 : ContextKernel :=
  ⟨[], "cell", 0, true, 5, 6, 7,
    [⟨[], ⟨"cell", false, false, [], none, "sk0", "code0", []⟩⟩]⟩

/-- Witness for C9 at a concrete mixed-output cell kernel. -/
theorem claim_C9_witness :
    loopySetup envSetup tempsC6 ([] ++ ckMixedC9 :: []) = .error .mixedNotSupported :=
  claim_C9 envSetup tempsC6 [] [] ckMixedC9 loopyInit rfl (by decide) (by decide)
    (Or.inl rfl) rfl (by decide)

/- ### C1: divergence of the two lowering targets on the same input -/

def kinfoC1 : KernelInfo :=
  ⟨"interior_facet", false, false, [], none, "sk0", "code0", []⟩

def ckC1 : ContextKernel :=
  ⟨[], "interior_facet", 0, false, 5, 6, 7, [⟨[], kinfoC1⟩]⟩

def tempsC1 : List (Nat × String) := [(0, "T0")]

/-- C1: the two lowering targets diverge on an interior-facet context
kernel over a non-mixed terminal with no coefficients: the flat
macro-kernel target succeeds and files the call into the
`interior_facet` bucket, while the structured-loop target (whose facet
handling is absent) fails with the `Unhandled integral type` error; it
also has no cost estimators at all.  This exhibits the code breaking the
required equivalence of the two targets. -/
theorem claim_C1 :
    (∃ r, flatSetup envSetup tempsC1 [ckC1] = .ok r ∧
      r.assembly_calls.lookup "interior_facet"
        = some [.plain ⟨"sk0", "T0", [], ["coords", "&i0"]⟩]) ∧
    loopySetup envSetup tempsC1 [ckC1]
      = .error (.unhandledIntegralType "interior_facet") := by
  exact ⟨⟨_, rfl, rfl⟩, rfl⟩

end Slate
